import Mathlib

/-!
Shallow embedding of the duplicate-tab reconciliation engine in
`src/background.js` (Frick-Duplicate-Tabs).  Pure functions are translated
directly; stateful code (the `TabsInfo` registry, the debounce timer map)
becomes explicit state passing over association lists; the asynchronous
removal API becomes an explicit outcome oracle (`Nat → Option String`,
attempt number to error message or success).
-/

namespace FrickDup

/-! ## String utilities (JS string primitives used by the URL canonicalizer) -/

/-- ASCII lower-casing of one character, the fragment of JS
`String.prototype.toLowerCase` exercised by URL strings. -/
def toLowerChar (c : Char) : Char :=
  if 'A' ≤ c ∧ c ≤ 'Z' then Char.ofNat (c.toNat + 32) else c

/-- `s.split("#")[0]`: the characters before the first `#`. -/
def takeUntilHash : List Char → List Char
  | [] => []
  | c :: t => if c = '#' then [] else c :: takeUntilHash t

/-- JS `String.prototype.replace(pat, repl)` with a string pattern:
replace the first occurrence only; the search is case-sensitive. -/
def replaceFirstStr (pat repl : List Char) : List Char → List Char
  | [] => if pat.isPrefixOf ([] : List Char) then repl else []
  | c :: t =>
    if pat.isPrefixOf (c :: t) then repl ++ (c :: t).drop pat.length
    else c :: replaceFirstStr pat repl t

/-- JS `String.prototype.includes(pat)`: substring containment. -/
def containsSub (pat : List Char) : List Char → Bool
  | [] => pat.isEmpty
  | c :: t => pat.isPrefixOf (c :: t) || containsSub pat t

/-! ## URL utilities (`src/background.js` lines 141-158) -/

/-- `isValidURL`: the regex `^(f|ht)tps?:\/\//i`, i.e. a case-insensitive
prefix among `ftp://`, `ftps://`, `http://`, `https://`. -/
def isValidURL (url : String) : Bool :=
  let l := url.toList.map toLowerChar
  "ftp://".toList.isPrefixOf l || "ftps://".toList.isPrefixOf l ||
  "http://".toList.isPrefixOf l || "https://".toList.isPrefixOf l

/-- `getMatchingURL` (lines 150-158): for non-network URLs the identity;
for network URLs: drop the fragment, replace the first occurrence of the
literal substring `"://www."` by `"://"` (case-sensitive, before
lower-casing), lower-case, strip one trailing slash. -/
def getMatchingURL (url : String) : String :=
  if isValidURL url then
    let m1 := takeUntilHash url.toList
    let m2 := replaceFirstStr "://www.".toList "://".toList m1
    let m3 := m2.map toLowerChar
    let m4 := if m3.getLast? = some '/' then m3.dropLast else m3
    String.mk m4
  else url

/-! ## Resource registry: the `TabsInfo` class (lines 175-273)

The JS `Map` is embedded as an association list with unique keys kept in
insertion order; `Map.set` overwrites an existing binding in place,
`Map.delete` removes it. -/

/-- One registry record (line 190 / 195): `url`, `lastComplete`, `ignored`,
`lastAccessed`.  `Date.now()` timestamps are passed in explicitly. -/
structure TabRec where
  url : Option String
  lastComplete : Option Nat
  ignored : Bool
  lastAccessed : Nat
deriving DecidableEq, Repr

/-- The `TabsInfo.tabs` map. -/
abbrev TabsInfo := List (Nat × TabRec)

/-- `this.tabs.get(tabId)`. -/
def tabsGet (m : TabsInfo) (id : Nat) : Option TabRec :=
  (List.find? (fun p => p.1 == id) m).map Prod.snd

/-- `this.tabs.set(tabId, rec)`: overwrite the binding if present,
otherwise append it. -/
def tabsSet (m : TabsInfo) (id : Nat) (r : TabRec) : TabsInfo :=
  if (List.find? (fun p => p.1 == id) m).isSome then
    m.map (fun p => if p.1 == id then (id, r) else p)
  else m ++ [(id, r)]

/-- `setNewTab` (lines 189-192). -/
def setNewTab (m : TabsInfo) (tabId : Nat) (now : Nat) : TabsInfo :=
  tabsSet m tabId { url := none, lastComplete := none, ignored := false, lastAccessed := now }

/-- `ignoreTab` (lines 199-206): update `ignored` and touch `lastAccessed`
when the record exists; no-op otherwise. -/
def ignoreTab (m : TabsInfo) (tabId : Nat) (state : Bool) (now : Nat) : TabsInfo :=
  match tabsGet m tabId with
  | none => m
  | some t => tabsSet m tabId { t with ignored := state, lastAccessed := now }

/-- `isIgnoredTab` (lines 208-211): an unknown id counts as ignored. -/
def isIgnoredTab (m : TabsInfo) (tabId : Nat) : Bool :=
  match tabsGet m tabId with
  | none => true
  | some t => t.ignored

/-- `getLastComplete` (lines 213-216). -/
def getLastComplete (m : TabsInfo) (tabId : Nat) : Option Nat :=
  match tabsGet m tabId with
  | none => none
  | some t => t.lastComplete

/-- `TabsInfo.cleanup` (lines 245-268), registry effect only: first loop
deletes every stored id absent from the fresh snapshot `snap`; second loop
deletes records idle past one hour that are also absent from `snap`.
(Deleting while iterating a key snapshot / a live JS `Map` touches only the
current entry, so each loop is a filter.)  The final
`cleanupStaleWindows` call touches the debounce timer map, not the
registry, and is modelled with the debouncer below. -/
def cleanup (m : TabsInfo) (snap : List Nat) (now : Nat) : TabsInfo :=
  let m1 := m.filter (fun p => snap.contains p.1)
  m1.filter (fun p => !(decide (p.2.lastAccessed < now - 3600000) && !snap.contains p.1))

/-! ## Tabs and the tie-break resolver (lines 276-305) -/

/-- The fields of a browser tab object used by the worker logic.
`lastAccessed` is optional because the startup reconciler reads it with a
`|| 0` default. -/
structure Tab where
  id : Nat
  windowId : Int
  active : Bool
  index : Nat
  url : String
  lastAccessed : Option Nat
deriving DecidableEq, Repr

/-- `getLastUpdatedTabId` (lines 276-282): the retained (keeper) id by the
recency rule; a `null` `lastComplete` on the observed side yields the
opened tab, on the opened side the observed tab; otherwise strictly
earlier `lastComplete` wins and the opened tab wins ties. -/
def getLastUpdatedTabId (m : TabsInfo) (observedTab openedTab : Tab) : Nat :=
  match getLastComplete m observedTab.id, getLastComplete m openedTab.id with
  | none, _ => openedTab.id
  | some _, none => observedTab.id
  | some a, some b => if a < b then observedTab.id else openedTab.id

/-- `getFocusedTab` (lines 284-289). -/
def getFocusedTab (observedTab openedTab : Tab) (activeWindowId : Int)
    (retainedTabId : Nat) : Nat :=
  if retainedTabId = observedTab.id then
    if openedTab.windowId = activeWindowId ∧
        (openedTab.active = true ∨ observedTab.windowId ≠ activeWindowId) then
      openedTab.id
    else observedTab.id
  else
    if observedTab.windowId = activeWindowId ∧
        (observedTab.active = true ∨ openedTab.windowId ≠ activeWindowId) then
      observedTab.id
    else openedTab.id

/-- The focus-override condition tested by `getFocusedTab` on the
non-provisional candidate: the tab is in the focused window AND (is itself
active OR the other candidate is not in the focused window). -/
def focusOverrideCond (t other : Tab) (w : Int) : Prop :=
  t.windowId = w ∧ (t.active = true ∨ other.windowId ≠ w)

instance (t other : Tab) (w : Int) : Decidable (focusOverrideCond t other w) := by
  unfold focusOverrideCond
  infer_instance

/-- The `keepInfo` record built by `getCloseInfo` (lines 297-303). -/
structure KeepInfo where
  observedTabClosed : Bool
  active : Bool
  tabIndex : Nat
  tabId : Nat
  windowId : Int
deriving DecidableEq, Repr

/-- JS truthiness of `activeWindowId` in `if (activeWindowId)` (line 294):
`null` and the number `0` are falsy. -/
def truthyWindowId : Option Int → Bool
  | none => false
  | some w => !(w == 0)

/-- `getCloseInfo` (lines 291-305): recency rule, then the focus override
when `activeWindowId` is truthy; returns `(loserId, keepInfo)`. -/
def getCloseInfo (m : TabsInfo) (observedTab openedTab : Tab)
    (activeWindowId : Option Int) : Nat × KeepInfo :=
  let r0 := getLastUpdatedTabId m observedTab openedTab
  let retainedTabId :=
    if truthyWindowId activeWindowId then
      getFocusedTab observedTab openedTab (activeWindowId.getD 0) r0
    else r0
  let keepInfo : KeepInfo :=
    { observedTabClosed := retainedTabId ≠ observedTab.id,
      active := if retainedTabId = observedTab.id then openedTab.active else observedTab.active,
      tabIndex := if retainedTabId = observedTab.id then openedTab.index else observedTab.index,
      tabId := retainedTabId,
      windowId := if retainedTabId = observedTab.id then observedTab.windowId else openedTab.windowId }
  (if retainedTabId = observedTab.id then openedTab.id else observedTab.id, keepInfo)

/-! ## `removeTab` with bounded retry (lines 116-138)

The asynchronous `chrome.tabs.remove` is embedded as an outcome oracle
`env : Nat → Option String` giving, for the attempt made with
`retryCount = n`, either `none` (success) or `some msg` (the
`chrome.runtime.lastError.message`). -/

def maxRetries : Nat := 2

def retryDelay : Nat := 50

def transientMarker : String := "Tabs cannot be edited right now"

/-- The retry classification (line 123): the error message contains the
transient marker and the retry budget is not exhausted. -/
def isTransientRetry (msg : String) (retryCount : Nat) : Bool :=
  containsSub transientMarker.toList msg.toList && decide (retryCount < maxRetries)

/-- `removeTab` run from a given `retryCount`, also counting the attempts
made: success resolves, a transient error within budget recurses after the
fixed delay, anything else rejects with the message. -/
def removeTabRun (env : Nat → Option String) (retryCount : Nat) :
    Except String Unit × Nat :=
  match env retryCount with
  | none => (Except.ok (), 1)
  | some msg =>
    if h : isTransientRetry msg retryCount = true then
      let r := removeTabRun env (retryCount + 1)
      (r.1, r.2 + 1)
    else (Except.error msg, 1)
termination_by maxRetries - retryCount
decreasing_by
  simp only [isTransientRetry, Bool.and_eq_true, decide_eq_true_eq] at h
  omega

/-- `removeTab(tabId)` as called with the default `retryCount = 0`. -/
def removeTab (env : Nat → Option String) : Except String Unit × Nat :=
  removeTabRun env 0

/-! ## `closeDuplicateTab` (lines 329-337)

Sets the ignored flag, attempts the removal, clears the flag on the
failure path; on success the flag stays set and the (registry-neutral)
debounced refocus is scheduled.  `now1` is the `Date.now()` of the first
`ignoreTab`, `now2` that of the failure-path `ignoreTab`. -/
def closeDuplicateTab (m : TabsInfo) (env : Nat → Option String)
    (tabToCloseId : Nat) (now1 now2 : Nat) : TabsInfo :=
  let m1 := ignoreTab m tabToCloseId true now1
  match (removeTab env).1 with
  | Except.ok _ => m1
  | Except.error _ => ignoreTab m1 tabToCloseId false now2

/-! ## Per-window debouncer (lines 6-58), cancellation interface

The timer map of `windowBasedDebounce` is an association list
window-id → timer-id.  `cancel` takes the raw JS argument, which may be
`null`/`undefined` (`Option`): line 25 guards with `windowId != null`. -/

abbrev Timers := List (Int × Nat)

/-- `debounced.hasPending(windowId)` (line 39). -/
def debounceHasPending (timers : Timers) (windowId : Int) : Bool :=
  (List.find? (fun p => p.1 == windowId) timers).isSome

/-- `debounced.cancel(windowId)` (lines 24-31): if the argument is
non-null and a timer is pending for it, clear and delete the timer and
return `true`; otherwise a no-op returning `false`. -/
def debounceCancel (timers : Timers) (windowId : Option Int) : Timers × Bool :=
  match windowId with
  | none => (timers, false)
  | some w =>
    if (List.find? (fun p => p.1 == w) timers).isSome then
      (timers.filter (fun p => !(p.1 == w)), true)
    else (timers, false)

/-! ## Startup reconciler (`findAndCloseDuplicatesOnInstall`, lines 427-490)

Per duplicate group: sort by `lastAccessed` descending (JS sort is
stable), keep the head, and close the rest — concurrently when at most 4
losers, else sequentially with a `wait(25)` after each removal.  The
removal outcomes are an oracle per tab id; the emitted removal/delay
schedule is recorded as a `BatchAction` trace. -/

/-- `(tab.lastAccessed || 0)` (line 446). -/
def lastAccessedKey (t : Tab) : Nat := t.lastAccessed.getD 0

/-- Stable insertion into a list sorted by `lastAccessedKey` descending. -/
def insertByLastAccessedDesc (t : Tab) : List Tab → List Tab
  | [] => [t]
  | h :: tl =>
    if lastAccessedKey h ≤ lastAccessedKey t then t :: h :: tl
    else h :: insertByLastAccessedDesc t tl

/-- `tabs.sort((a, b) => (b.lastAccessed || 0) - (a.lastAccessed || 0))`
(line 446), as a stable descending sort. -/
def sortByLastAccessedDesc : List Tab → List Tab
  | [] => []
  | h :: tl => insertByLastAccessedDesc h (sortByLastAccessedDesc tl)

/-- One scheduled step of a group closure. -/
inductive BatchAction where
  | remove (id : Nat)
  | delay (ms : Nat)
deriving DecidableEq, Repr

/-- Whether `removeTab` ultimately rejects for a given tab id, under a
per-tab outcome oracle. -/
def removalFails (envs : Nat → Nat → Option String) (id : Nat) : Bool :=
  match (removeTab (envs id)).1 with
  | Except.ok _ => false
  | Except.error _ => true

/-- The concurrent branch (lines 451-464): first every loser is marked
ignored, then each closure runs independently, clearing the flag of the
losers whose removal failed. -/
def closeLosersConcurrent (m : TabsInfo) (envs : Nat → Nat → Option String)
    (now : Nat) (tabsToClose : List Tab) : TabsInfo :=
  let m1 := tabsToClose.foldl (fun acc t => ignoreTab acc t.id true now) m
  tabsToClose.foldl
    (fun acc t => if removalFails envs t.id then ignoreTab acc t.id false now else acc) m1

/-- The sequential branch (lines 465-474): per loser, mark ignored,
attempt removal, and on failure clear the flag. -/
def closeLosersSequential (m : TabsInfo) (envs : Nat → Nat → Option String)
    (now : Nat) (tabsToClose : List Tab) : TabsInfo :=
  tabsToClose.foldl
    (fun acc t =>
      if removalFails envs t.id then
        ignoreTab (ignoreTab acc t.id true now) t.id false now
      else ignoreTab acc t.id true now) m

/-- The removal/delay schedule of one group: the concurrent branch issues
all removals in parallel with no inter-removal delay; the sequential
branch issues `remove` then `wait(25)` per loser. -/
def groupClosureActions (tabsToClose : List Tab) : List BatchAction :=
  if tabsToClose.length ≤ 4 then tabsToClose.map (fun t => BatchAction.remove t.id)
  else tabsToClose.flatMap (fun t => [BatchAction.remove t.id, BatchAction.delay 25])

/-- The per-group body of `findAndCloseDuplicatesOnInstall`
(lines 444-484): sort by last access descending, keep the head, close the
tail by the `tabsToClose.length <= 4` policy; returns the updated registry
and the schedule of removal/delay actions. -/
def installProcessGroup (m : TabsInfo) (envs : Nat → Nat → Option String)
    (now : Nat) (group : List Tab) : TabsInfo × List BatchAction :=
  match sortByLastAccessedDesc group with
  | [] => (m, [])
  | _tabToKeep :: tabsToClose =>
    if tabsToClose.length ≤ 4 then
      (closeLosersConcurrent m envs now tabsToClose, groupClosureActions tabsToClose)
    else
      (closeLosersSequential m envs now tabsToClose, groupClosureActions tabsToClose)

/-! ## Concrete inputs used by counterexamples and witnesses -/

/-- Two tabs sharing a canonical URL in window 1. -/
def obsT : Tab :=
  { id := 1, windowId := 1, active := false, index := 0,
    url := "https://example.com/a", lastAccessed := some 50 }

def opT : Tab :=
  { id := 2, windowId := 1, active := true, index := 3,
    url := "https://example.com/a", lastAccessed := some 40 }

/-- A registry record settled at time 100. -/
def recA : TabRec :=
  { url := some "https://example.com/a", lastComplete := some 100,
    ignored := false, lastAccessed := 100 }

/-- Registry in which both tabs settled at the same instant. -/
def regTie : TabsInfo := [(1, recA), (2, recA)]

/-- Registry in which the observed tab (id 1) settled earlier. -/
def regOld : TabsInfo :=
  [(1, { url := some "https://example.com/a", lastComplete := some 50,
         ignored := false, lastAccessed := 50 }),
   (2, recA)]

/-- A tab that is active in the focused window 5. -/
def obsF : Tab :=
  { id := 1, windowId := 5, active := true, index := 0,
    url := "https://example.com/a", lastAccessed := none }

/-- A tab in the unfocused window 6. -/
def opF : Tab :=
  { id := 2, windowId := 6, active := false, index := 1,
    url := "https://example.com/a", lastAccessed := none }

/-- Oracle: every removal attempt fails with the transient message. -/
def envAllTransient : Nat → Option String := fun _ => some transientMarker

/-- Oracle: every removal attempt succeeds. -/
def envAllOk : Nat → Option String := fun _ => none

/-- Per-tab oracle: every removal of every tab succeeds. -/
def envsAllOk : Nat → Nat → Option String := fun _ _ => none

/-- A timer map with one pending window. -/
def timersOne : Timers := [(1, 10)]

/-- A startup-reconciler duplicate group of two tabs. -/
def instGroup : List Tab := [obsT, opT]

/-- A tab for the startup-boundary groups. -/
def gTab (i la : Nat) : Tab :=
  { id := i, windowId := 1, active := false, index := 0,
    url := "https://example.com/g", lastAccessed := some la }

/-- A duplicate group with 4 losers after sorting. -/
def g5 : List Tab := [gTab 1 90, gTab 2 80, gTab 3 70, gTab 4 60, gTab 5 50]

/-- A duplicate group with 5 losers after sorting. -/
def g6 : List Tab :=
  [gTab 1 90, gTab 2 80, gTab 3 70, gTab 4 60, gTab 5 50, gTab 6 40]

end FrickDup

namespace FrickDup

/-! ## Association-list lemmas -/

theorem find_key_replace {α β : Type} [BEq α] [LawfulBEq α]
    (m : List (α × β)) (i : α) (r : β)
    (h : (List.find? (fun p => p.1 == i) m).isSome = true) :
    List.find? (fun p => p.1 == i)
      (m.map (fun p => if p.1 == i then (i, r) else p)) = some (i, r) := by
  induction m with
  | nil => simp at h
  | cons a tl ih =>
    by_cases ha : (a.1 == i) = true
    · simp [List.find?, ha]
    · simp only [Bool.not_eq_true] at ha
      have hfa : (if a.1 == i then (i, r) else a) = a := by simp [ha]
      have hh : (List.find? (fun p => p.1 == i) tl).isSome = true := by
        simpa [List.find?, ha] using h
      simp only [List.map_cons, hfa]
      rw [List.find?_cons_of_neg]
      · exact ih hh
      · simp [ha]

theorem find_key_replace_ne {α β : Type} [BEq α] [LawfulBEq α]
    (m : List (α × β)) (i j : α) (r : β) (hne : j ≠ i) :
    List.find? (fun p => p.1 == j)
      (m.map (fun p => if p.1 == i then (i, r) else p)) =
    List.find? (fun p => p.1 == j) m := by
  induction m with
  | nil => simp
  | cons a tl ih =>
    by_cases ha : (a.1 == i) = true
    · have ha1 : a.1 = i := eq_of_beq ha
      have hij : (i == j) = false := by
        rw [beq_eq_false_iff_ne]
        exact fun hh => hne hh.symm
      have haj : (a.1 == j) = false := by rw [ha1]; exact hij
      have hfa : (if a.1 == i then (i, r) else a) = (i, r) := by simp [ha]
      simp only [List.map_cons, hfa]
      rw [List.find?_cons_of_neg, List.find?_cons_of_neg]
      · exact ih
      · simp [haj]
      · simp [hij]
    · simp only [Bool.not_eq_true] at ha
      have hfa : (if a.1 == i then (i, r) else a) = a := by simp [ha]
      simp only [List.map_cons, hfa]
      by_cases haj : (a.1 == j) = true
      · rw [List.find?_cons_of_pos, List.find?_cons_of_pos] <;> simp [haj]
      · simp only [Bool.not_eq_true] at haj
        rw [List.find?_cons_of_neg, List.find?_cons_of_neg]
        · exact ih
        · simp [haj]
        · simp [haj]

theorem find_key_append_single_ne {α β : Type} [BEq α] [LawfulBEq α]
    (m : List (α × β)) (i j : α) (r : β) (hne : j ≠ i) :
    List.find? (fun p => p.1 == j) (m ++ [(i, r)]) =
    List.find? (fun p => p.1 == j) m := by
  induction m with
  | nil =>
    have hij : (i == j) = false := by
      rw [beq_eq_false_iff_ne]
      exact fun hh => hne hh.symm
    simp [List.find?, hij]
  | cons a tl ih =>
    by_cases ha : (a.1 == j) = true
    · simp only [List.cons_append]
      rw [List.find?_cons_of_pos, List.find?_cons_of_pos] <;> simp [ha]
    · simp only [Bool.not_eq_true] at ha
      simp only [List.cons_append]
      rw [List.find?_cons_of_neg, List.find?_cons_of_neg]
      · exact ih
      · simp [ha]
      · simp [ha]

theorem find_key_append_single_self {α β : Type} [BEq α] [LawfulBEq α]
    (m : List (α × β)) (i : α) (r : β)
    (h : List.find? (fun p => p.1 == i) m = none) :
    List.find? (fun p => p.1 == i) (m ++ [(i, r)]) = some (i, r) := by
  induction m with
  | nil => simp [List.find?]
  | cons a tl ih =>
    by_cases ha : (a.1 == i) = true
    · rw [List.find?_cons_of_pos] at h
      · exact absurd h (by simp)
      · simp [ha]
    · simp only [Bool.not_eq_true] at ha
      rw [List.find?_cons_of_neg] at h
      · simp only [List.cons_append]
        rw [List.find?_cons_of_neg]
        · exact ih h
        · simp [ha]
      · simp [ha]

theorem find_key_filter_of_keep {α β : Type} [BEq α] [LawfulBEq α]
    (m : List (α × β)) (q : α × β → Bool) (k : α)
    (hq : ∀ b, q (k, b) = true) :
    List.find? (fun p => p.1 == k) (m.filter q) =
    List.find? (fun p => p.1 == k) m := by
  induction m with
  | nil => simp
  | cons a tl ih =>
    by_cases ha : (a.1 == k) = true
    · have ha1 : a.1 = k := eq_of_beq ha
      have hqa : q a = true := by
        have haa : a = (k, a.2) := by
          obtain ⟨a1, a2⟩ := a
          simp only at ha1
          rw [ha1]
        rw [haa]; exact hq a.2
      rw [List.filter_cons_of_pos hqa]
      rw [List.find?_cons_of_pos, List.find?_cons_of_pos] <;> simp [ha]
    · simp only [Bool.not_eq_true] at ha
      by_cases hqa : q a = true
      · rw [List.filter_cons_of_pos hqa]
        rw [List.find?_cons_of_neg, List.find?_cons_of_neg]
        · exact ih
        · simp [ha]
        · simp [ha]
      · simp only [Bool.not_eq_true] at hqa
        rw [List.filter_cons_of_neg (by simp [hqa])]
        rw [ih]
        rw [List.find?_cons_of_neg]
        simp [ha]

theorem find_key_filter_out {α β : Type} [BEq α] [LawfulBEq α]
    (m : List (α × β)) (k : α) :
    List.find? (fun p => p.1 == k) (m.filter (fun p => !(p.1 == k))) = none := by
  induction m with
  | nil => simp
  | cons a tl ih =>
    by_cases ha : (a.1 == k) = true
    · rw [List.filter_cons_of_neg (by simp [ha])]
      exact ih
    · simp only [Bool.not_eq_true] at ha
      rw [List.filter_cons_of_pos (by simp [ha])]
      rw [List.find?_cons_of_neg]
      · exact ih
      · simp [ha]

/-! ## Registry lemmas -/

theorem tabsGet_tabsSet_self (m : TabsInfo) (i : Nat) (r : TabRec) :
    tabsGet (tabsSet m i r) i = some r := by
  unfold tabsSet
  by_cases h : (List.find? (fun p => p.1 == i) m).isSome = true
  · rw [if_pos h]
    unfold tabsGet
    rw [find_key_replace m i r h]
    rfl
  · rw [if_neg h]
    unfold tabsGet
    rw [find_key_append_single_self]
    · rfl
    · rw [← Option.not_isSome_iff_eq_none]
      simp only [Bool.not_eq_true] at h
      simp [h]

theorem tabsGet_tabsSet_ne (m : TabsInfo) (i j : Nat) (r : TabRec) (hne : j ≠ i) :
    tabsGet (tabsSet m i r) j = tabsGet m j := by
  unfold tabsSet
  by_cases h : (List.find? (fun p => p.1 == i) m).isSome = true
  · rw [if_pos h]
    unfold tabsGet
    rw [find_key_replace_ne m i j r hne]
  · rw [if_neg h]
    unfold tabsGet
    rw [find_key_append_single_ne m i j r hne]

theorem tabsGet_ignoreTab_self (m : TabsInfo) (i : Nat) (s : Bool) (now : Nat)
    (t : TabRec) (ht : tabsGet m i = some t) :
    tabsGet (ignoreTab m i s now) i =
      some { t with ignored := s, lastAccessed := now } := by
  unfold ignoreTab
  rw [ht]
  exact tabsGet_tabsSet_self m i _

theorem tabsGet_ignoreTab_ne (m : TabsInfo) (i j : Nat) (s : Bool) (now : Nat)
    (hne : j ≠ i) :
    tabsGet (ignoreTab m i s now) j = tabsGet m j := by
  unfold ignoreTab
  cases tabsGet m i with
  | none => rfl
  | some t => exact tabsGet_tabsSet_ne m i j _ hne

/-- A fold whose step touches only the key of its own element leaves
other keys unchanged. -/
theorem tabsGet_foldl_of_forall_ne (l : List Tab) (i : Nat)
    (step : TabsInfo → Tab → TabsInfo)
    (hstep : ∀ acc t, t.id ≠ i → tabsGet (step acc t) i = tabsGet acc i)
    (hi : ∀ t ∈ l, t.id ≠ i) (m : TabsInfo) :
    tabsGet (l.foldl step m) i = tabsGet m i := by
  induction l generalizing m with
  | nil => rfl
  | cons a tl ih =>
    rw [List.foldl_cons]
    rw [ih (fun t htl => hi t (List.mem_cons_of_mem a htl)) (step m a)]
    exact hstep m a (hi a (List.mem_cons_self a tl))

/-! ## Tie-break resolver lemmas -/

theorem getLastUpdatedTabId_mem (m : TabsInfo) (a b : Tab) :
    getLastUpdatedTabId m a b = a.id ∨ getLastUpdatedTabId m a b = b.id := by
  unfold getLastUpdatedTabId
  cases getLastComplete m a.id with
  | none => right; rfl
  | some x =>
    cases getLastComplete m b.id with
    | none => left; rfl
    | some y =>
      by_cases h : x < y
      · left; simp [h]
      · right; simp [h]

theorem getFocusedTab_mem (a b : Tab) (w : Int) (r : Nat) :
    getFocusedTab a b w r = a.id ∨ getFocusedTab a b w r = b.id := by
  unfold getFocusedTab
  split_ifs <;> simp

/-- The focus override picks a candidate satisfying the override
condition when one exists, and keeps the provisional keeper otherwise. -/
theorem getFocusedTab_spec (a b : Tab) (w : Int) (r0 : Nat)
    (hne : a.id ≠ b.id) (hr : r0 = a.id ∨ r0 = b.id) :
    ((focusOverrideCond a b w ∨ focusOverrideCond b a w) →
      (getFocusedTab a b w r0 = a.id ∧ focusOverrideCond a b w) ∨
      (getFocusedTab a b w r0 = b.id ∧ focusOverrideCond b a w)) ∧
    (¬focusOverrideCond a b w → ¬focusOverrideCond b a w →
      getFocusedTab a b w r0 = r0) := by
  unfold getFocusedTab focusOverrideCond
  rcases hr with hr | hr
  · rw [if_pos hr]
    constructor
    · intro hor
      by_cases hb : b.windowId = w ∧ (b.active = true ∨ a.windowId ≠ w)
      · right
        exact ⟨by rw [if_pos hb], hb⟩
      · left
        refine ⟨by rw [if_neg hb], ?_⟩
        tauto
    · intro hpa hpb
      rw [if_neg hpb, hr]
  · rw [if_neg (by rw [hr]; exact fun hh => hne hh.symm)]
    constructor
    · intro hor
      by_cases ha : a.windowId = w ∧ (a.active = true ∨ b.windowId ≠ w)
      · left
        exact ⟨by rw [if_pos ha], ha⟩
      · right
        refine ⟨by rw [if_neg ha], ?_⟩
        tauto
    · intro hpa hpb
      rw [if_neg hpa, hr]

/-- The loser returned by `getCloseInfo` is always one of the two
candidate ids. -/
theorem getCloseInfo_loser_mem (m : TabsInfo) (a b : Tab) (awid : Option Int) :
    (getCloseInfo m a b awid).1 = a.id ∨ (getCloseInfo m a b awid).1 = b.id := by
  unfold getCloseInfo
  dsimp only
  split_ifs <;> simp

/-! ## Reconciler fold lemmas -/

theorem mem_map_split (l : List Tab) (i : Nat)
    (hnd : (l.map Tab.id).Nodup) (hmem : i ∈ l.map Tab.id) :
    ∃ l1 x l2, l = l1 ++ x :: l2 ∧ x.id = i ∧
      (∀ t ∈ l1, t.id ≠ i) ∧ (∀ t ∈ l2, t.id ≠ i) := by
  obtain ⟨x, hx, hxid⟩ := List.mem_map.mp hmem
  obtain ⟨l1, l2, rfl⟩ := List.append_of_mem hx
  rw [List.map_append, List.map_cons, List.nodup_append] at hnd
  obtain ⟨hn1, hn2, hdisj⟩ := hnd
  rw [List.nodup_cons] at hn2
  refine ⟨l1, x, l2, rfl, hxid, ?_, ?_⟩
  · intro t htl hti
    have hmem1 : t.id ∈ l1.map Tab.id := List.mem_map_of_mem Tab.id htl
    have hmem2 : t.id ∈ x.id :: l2.map Tab.id := by
      rw [hti, ← hxid]
      exact List.mem_cons_self _ _
    exact hdisj hmem1 hmem2
  · intro t htl hti
    apply hn2.1
    have hmem2 : t.id ∈ l2.map Tab.id := List.mem_map_of_mem Tab.id htl
    rwa [hti, ← hxid] at hmem2

theorem closeLosersConcurrent_get (m : TabsInfo) (envs : Nat → Nat → Option String)
    (now : Nat) (l : List Tab) (i : Nat) (t : TabRec)
    (hnd : (l.map Tab.id).Nodup) (hmem : i ∈ l.map Tab.id)
    (ht : tabsGet m i = some t) :
    tabsGet (closeLosersConcurrent m envs now l) i =
      some { t with ignored := !(removalFails envs i), lastAccessed := now } := by
  obtain ⟨l1, x, l2, rfl, hxid, h1, h2⟩ := mem_map_split l i hnd hmem
  unfold closeLosersConcurrent
  have hstep1 : ∀ (acc : TabsInfo) (u : Tab), u.id ≠ i →
      tabsGet (ignoreTab acc u.id true now) i = tabsGet acc i :=
    fun acc u hu => tabsGet_ignoreTab_ne acc u.id i true now (fun hh => hu hh.symm)
  have hstep2 : ∀ (acc : TabsInfo) (u : Tab), u.id ≠ i →
      tabsGet (if removalFails envs u.id then ignoreTab acc u.id false now else acc) i =
        tabsGet acc i := by
    intro acc u hu
    by_cases hf : removalFails envs u.id = true
    · rw [if_pos hf]
      exact tabsGet_ignoreTab_ne acc u.id i false now (fun hh => hu hh.symm)
    · rw [if_neg hf]
  have hm1 : tabsGet ((l1 ++ x :: l2).foldl (fun acc u => ignoreTab acc u.id true now) m) i =
      some { t with ignored := true, lastAccessed := now } := by
    rw [List.foldl_append, List.foldl_cons]
    rw [tabsGet_foldl_of_forall_ne l2 i _ hstep1 h2]
    rw [hxid]
    refine tabsGet_ignoreTab_self _ i true now t ?_
    rw [tabsGet_foldl_of_forall_ne l1 i _ hstep1 h1]
    exact ht
  rw [List.foldl_append, List.foldl_cons]
  rw [tabsGet_foldl_of_forall_ne l2 i _ hstep2 h2]
  by_cases hf : removalFails envs i = true
  · rw [hxid, if_pos hf]
    rw [tabsGet_ignoreTab_self _ i false now _ (by rw [tabsGet_foldl_of_forall_ne l1 i _ hstep2 h1]; exact hm1)]
    simp [hf]
  · rw [hxid, if_neg hf]
    rw [tabsGet_foldl_of_forall_ne l1 i _ hstep2 h1]
    rw [hm1]
    simp only [Bool.not_eq_true] at hf
    simp [hf]

theorem closeLosersSequential_get (m : TabsInfo) (envs : Nat → Nat → Option String)
    (now : Nat) (l : List Tab) (i : Nat) (t : TabRec)
    (hnd : (l.map Tab.id).Nodup) (hmem : i ∈ l.map Tab.id)
    (ht : tabsGet m i = some t) :
    tabsGet (closeLosersSequential m envs now l) i =
      some { t with ignored := !(removalFails envs i), lastAccessed := now } := by
  obtain ⟨l1, x, l2, rfl, hxid, h1, h2⟩ := mem_map_split l i hnd hmem
  unfold closeLosersSequential
  have hstep : ∀ (acc : TabsInfo) (u : Tab), u.id ≠ i →
      tabsGet
        (if removalFails envs u.id then
           ignoreTab (ignoreTab acc u.id true now) u.id false now
         else ignoreTab acc u.id true now) i =
        tabsGet acc i := by
    intro acc u hu
    by_cases hf : removalFails envs u.id = true
    · rw [if_pos hf]
      rw [tabsGet_ignoreTab_ne _ u.id i false now (fun hh => hu hh.symm)]
      exact tabsGet_ignoreTab_ne acc u.id i true now (fun hh => hu hh.symm)
    · rw [if_neg hf]
      exact tabsGet_ignoreTab_ne acc u.id i true now (fun hh => hu hh.symm)
  rw [List.foldl_append, List.foldl_cons]
  rw [tabsGet_foldl_of_forall_ne l2 i
    (fun acc u =>
      if removalFails envs u.id then
        ignoreTab (ignoreTab acc u.id true now) u.id false now
      else ignoreTab acc u.id true now) hstep h2]
  have hbase : tabsGet (l1.foldl
      (fun acc u =>
        if removalFails envs u.id then
          ignoreTab (ignoreTab acc u.id true now) u.id false now
        else ignoreTab acc u.id true now) m) i = some t := by
    rw [tabsGet_foldl_of_forall_ne l1 i
      (fun acc u =>
        if removalFails envs u.id then
          ignoreTab (ignoreTab acc u.id true now) u.id false now
        else ignoreTab acc u.id true now) hstep h1]
    exact ht
  by_cases hf : removalFails envs x.id = true
  · rw [if_pos hf]
    rw [hxid] at hf ⊢
    rw [tabsGet_ignoreTab_self _ i false now _
      (tabsGet_ignoreTab_self _ i true now t hbase)]
    simp [hf]
  · rw [if_neg hf]
    rw [hxid] at hf ⊢
    rw [tabsGet_ignoreTab_self _ i true now t hbase]
    simp only [Bool.not_eq_true] at hf
    simp [hf]

/-! ## Retry-count lemmas -/

theorem removeTabRun_count_le (env : Nat → Option String) :
    ∀ fuel rc, maxRetries - rc ≤ fuel → rc ≤ maxRetries →
      (removeTabRun env rc).2 ≤ maxRetries + 1 - rc := by
  intro fuel
  induction fuel with
  | zero =>
    intro rc hf hrc
    have hrc2 : rc = maxRetries := by omega
    rw [removeTabRun]
    cases env rc with
    | none =>
      show 1 ≤ maxRetries + 1 - rc
      omega
    | some msg =>
      have hnt : ¬(isTransientRetry msg rc = true) := by
        unfold isTransientRetry
        simp [hrc2]
      dsimp only
      rw [dif_neg hnt]
      show 1 ≤ maxRetries + 1 - rc
      omega
  | succ n ih =>
    intro rc hf hrc
    rw [removeTabRun]
    cases env rc with
    | none =>
      show 1 ≤ maxRetries + 1 - rc
      omega
    | some msg =>
      by_cases htr : isTransientRetry msg rc = true
      · have hlt : rc < maxRetries := by
          unfold isTransientRetry at htr
          simp only [Bool.and_eq_true, decide_eq_true_eq] at htr
          exact htr.2
        dsimp only
        rw [dif_pos htr]
        show (removeTabRun env (rc + 1)).2 + 1 ≤ maxRetries + 1 - rc
        have hih := ih (rc + 1) (by omega) (by omega)
        omega
      · dsimp only
        rw [dif_neg htr]
        show 1 ≤ maxRetries + 1 - rc
        omega


/-! ## Claim theorems -/

/-- C1 (counterexample): on a tie of non-null `lastComplete` values the
recency rule returns the opened tab's id, not `observedTab.id` as the
claim states: with both records settled at 100, `getLastUpdatedTabId`
does not return the observed tab. -/
theorem claim_C1_counterexample :
    getLastComplete regTie obsT.id = some 100 ∧
    getLastComplete regTie opT.id = some 100 ∧
    obsT.id ≠ opT.id ∧
    getLastUpdatedTabId regTie obsT opT ≠ obsT.id ∧
    getLastUpdatedTabId regTie obsT opT = opT.id := by
  decide

/-- C1 (amended): `getLastUpdatedTabId` returns `openedTab.id` when the
observed tab's `lastComplete` is null, `observedTab.id` when only the
opened tab's `lastComplete` is null, and otherwise the id whose
`lastComplete` is strictly smaller, with `openedTab.id` on ties. -/
theorem claim_C1_recency_rule (m : TabsInfo) (observedTab openedTab : Tab) :
    (getLastComplete m observedTab.id = none →
      getLastUpdatedTabId m observedTab openedTab = openedTab.id) ∧
    (∀ a, getLastComplete m observedTab.id = some a →
      getLastComplete m openedTab.id = none →
      getLastUpdatedTabId m observedTab openedTab = observedTab.id) ∧
    (∀ a b, getLastComplete m observedTab.id = some a →
      getLastComplete m openedTab.id = some b →
      getLastUpdatedTabId m observedTab openedTab =
        if a < b then observedTab.id else openedTab.id) := by
  refine ⟨?_, ?_, ?_⟩
  · intro h
    unfold getLastUpdatedTabId
    rw [h]
  · intro a ha hb
    unfold getLastUpdatedTabId
    rw [ha, hb]
  · intro a b ha hb
    unfold getLastUpdatedTabId
    rw [ha, hb]

/-- C1 (witness): the amended rule evaluated at the tie registry. -/
theorem claim_C1_witness :
    getLastUpdatedTabId regTie obsT opT = opT.id := by
  have h := (claim_C1_recency_rule regTie obsT opT).2.2 100 100 (by decide) (by decide)
  simpa using h

/-- C4 (counterexample): the three URL variants do NOT all produce the
same canonical key: `www.`-stripping is a case-sensitive replacement done
before lower-casing, and the scheme is preserved, so the three keys are
pairwise distinct. -/
theorem claim_C4_counterexample :
    getMatchingURL "https://WWW.Example.com/a/" ≠ getMatchingURL "https://example.com/a" ∧
    getMatchingURL "https://example.com/a" ≠ getMatchingURL "http://example.com/a" ∧
    getMatchingURL "https://WWW.Example.com/a/" ≠ getMatchingURL "http://example.com/a" := by
  decide

/-- C4 (amended): the exact keys of the three variants are pairwise
distinct: an upper-case `WWW.` label survives (only the literal lowercase
`"://www."` is stripped, before lower-casing) and the scheme is part of
the key; variants of the same scheme differing only by fragment, a
lowercase `www.` label, or one trailing slash do normalize identically. -/
theorem claim_C4_keys :
    getMatchingURL "https://WWW.Example.com/a/" = "https://www.example.com/a" ∧
    getMatchingURL "https://example.com/a" = "https://example.com/a" ∧
    getMatchingURL "http://example.com/a" = "http://example.com/a" ∧
    getMatchingURL "https://www.example.com/a/" = "https://example.com/a" ∧
    getMatchingURL "https://example.com/a#frag" = "https://example.com/a" := by
  decide

/-- C8: `cleanup` never deletes (or changes) a record whose id is present
in the fresh snapshot, regardless of how idle it is by `lastAccessed`. -/
theorem claim_C8_gc_preserves_present (m : TabsInfo) (snap : List Nat)
    (now i : Nat) (hmem : i ∈ snap) :
    tabsGet (cleanup m snap now) i = tabsGet m i := by
  have hc : snap.contains i = true := by
    simpa using hmem
  unfold cleanup tabsGet
  rw [find_key_filter_of_keep _ _ i (fun b => by simp; exact Or.inr hmem)]
  rw [find_key_filter_of_keep _ _ i (fun b => hc)]

/-- C8 (witness): a registry record idle far past the retention window
survives `cleanup` unchanged because its id is in the snapshot. -/
theorem claim_C8_witness :
    tabsGet (cleanup regTie [1, 2] 99999999999999) 1 = tabsGet regTie 1 :=
  claim_C8_gc_preserves_present regTie [1, 2] 99999999999999 1 (by decide)

/-- C9: debounce cancellation is keyed by window id and idempotent:
`cancel` returns `true` and deletes the timer when one is pending,
returns `false` leaving the map unchanged when none is pending (also for
a null argument), and a second consecutive cancel for the same window
always returns `false`. -/
theorem claim_C9_cancel_idempotent (timers : Timers) (w : Int) :
    (debounceHasPending timers w = true →
      (debounceCancel timers (some w)).2 = true ∧
      debounceHasPending (debounceCancel timers (some w)).1 w = false) ∧
    (debounceHasPending timers w = false →
      debounceCancel timers (some w) = (timers, false)) ∧
    (debounceCancel (debounceCancel timers (some w)).1 (some w)).2 = false ∧
    debounceCancel timers none = (timers, false) := by
  refine ⟨?_, ?_, ?_, rfl⟩
  · intro hp
    unfold debounceHasPending at hp
    unfold debounceCancel
    dsimp only
    rw [if_pos hp]
    refine ⟨rfl, ?_⟩
    unfold debounceHasPending
    dsimp only
    rw [find_key_filter_out]
    rfl
  · intro hp
    unfold debounceHasPending at hp
    unfold debounceCancel
    dsimp only
    rw [if_neg (by simp [hp])]
  · by_cases hp : (List.find? (fun p => p.1 == w) timers).isSome = true
    · have h1 : (debounceCancel timers (some w)).1 =
          timers.filter (fun p => !(p.1 == w)) := by
        unfold debounceCancel
        dsimp only
        rw [if_pos hp]
      rw [h1]
      unfold debounceCancel
      dsimp only
      rw [if_neg (by rw [find_key_filter_out]; simp)]
    · have h1 : (debounceCancel timers (some w)).1 = timers := by
        unfold debounceCancel
        dsimp only
        rw [if_neg hp]
      rw [h1]
      unfold debounceCancel
      dsimp only
      rw [if_neg hp]

/-- C9 (witness): the idempotence facts evaluated on a one-timer map. -/
theorem claim_C9_witness :
    (debounceCancel timersOne (some 1)).2 = true ∧
    debounceHasPending (debounceCancel timersOne (some 1)).1 1 = false ∧
    debounceCancel timersOne (some 7) = (timersOne, false) := by
  have h := claim_C9_cancel_idempotent timersOne 1
  have h7 := claim_C9_cancel_idempotent timersOne 7
  exact ⟨(h.1 (by decide)).1, (h.1 (by decide)).2, h7.2.1 (by decide)⟩

/-- C2: when the focused window id is truthy, the keeper chosen by
`getCloseInfo` is a candidate satisfying the focus-override condition
whenever one of the two satisfies it, and is the recency-rule keeper
when neither does; when the focused window id is null (or the falsy 0),
the recency-rule keeper stands unchanged. -/
theorem claim_C2_focus_override (m : TabsInfo) (observedTab openedTab : Tab)
    (w : Int) (hne : observedTab.id ≠ openedTab.id) (hw : w ≠ 0) :
    ((focusOverrideCond observedTab openedTab w ∨
        focusOverrideCond openedTab observedTab w) →
      ((getCloseInfo m observedTab openedTab (some w)).2.tabId = observedTab.id ∧
        focusOverrideCond observedTab openedTab w) ∨
      ((getCloseInfo m observedTab openedTab (some w)).2.tabId = openedTab.id ∧
        focusOverrideCond openedTab observedTab w)) ∧
    (¬focusOverrideCond observedTab openedTab w →
      ¬focusOverrideCond openedTab observedTab w →
      (getCloseInfo m observedTab openedTab (some w)).2.tabId =
        getLastUpdatedTabId m observedTab openedTab) ∧
    (getCloseInfo m observedTab openedTab none).2.tabId =
      getLastUpdatedTabId m observedTab openedTab ∧
    (getCloseInfo m observedTab openedTab (some 0)).2.tabId =
      getLastUpdatedTabId m observedTab openedTab := by
  have htr : truthyWindowId (some w) = true := by
    simp [truthyWindowId, hw]
  have hkeep : (getCloseInfo m observedTab openedTab (some w)).2.tabId =
      getFocusedTab observedTab openedTab w
        (getLastUpdatedTabId m observedTab openedTab) := by
    unfold getCloseInfo
    rw [htr]
    rfl
  have hspec := getFocusedTab_spec observedTab openedTab w
    (getLastUpdatedTabId m observedTab openedTab) hne
    (getLastUpdatedTabId_mem m observedTab openedTab)
  refine ⟨?_, ?_, ?_, ?_⟩
  · intro hor
    rw [hkeep]
    exact hspec.1 hor
  · intro hpa hpb
    rw [hkeep]
    exact hspec.2 hpa hpb
  · unfold getCloseInfo truthyWindowId
    rfl
  · unfold getCloseInfo truthyWindowId
    rfl

/-- C2 (witness): with window 5 focused, the active tab of window 5
overrides the recency keeper (which the tie gives to the opened tab);
with no focus information the recency keeper stands. -/
theorem claim_C2_witness :
    (getCloseInfo regTie obsF opF (some 5)).2.tabId = obsF.id ∧
    (getCloseInfo regTie obsF opF none).2.tabId =
      getLastUpdatedTabId regTie obsF opF := by
  have h := claim_C2_focus_override regTie obsF opF 5 (by decide) (by decide)
  refine ⟨?_, h.2.2.1⟩
  rcases h.1 (Or.inl (by decide)) with ⟨h1, _⟩ | ⟨_, h2⟩
  · exact h1
  · exact absurd h2 (by decide)

/-- C3: `getCloseInfo` is total and deterministic in the four inputs:
it always returns a loser that is one of the two candidate ids, and two
runs over registries agreeing on the candidates' `lastComplete` values
(same tab objects, same `activeWindowId`) return identical results. -/
theorem claim_C3_total_deterministic (m1 m2 : TabsInfo)
    (observedTab openedTab : Tab) (activeWindowId : Option Int)
    (h1 : getLastComplete m1 observedTab.id = getLastComplete m2 observedTab.id)
    (h2 : getLastComplete m1 openedTab.id = getLastComplete m2 openedTab.id) :
    getCloseInfo m1 observedTab openedTab activeWindowId =
      getCloseInfo m2 observedTab openedTab activeWindowId ∧
    ((getCloseInfo m1 observedTab openedTab activeWindowId).1 = observedTab.id ∨
      (getCloseInfo m1 observedTab openedTab activeWindowId).1 = openedTab.id) := by
  have hlu : getLastUpdatedTabId m1 observedTab openedTab =
      getLastUpdatedTabId m2 observedTab openedTab := by
    unfold getLastUpdatedTabId
    rw [h1, h2]
  constructor
  · unfold getCloseInfo
    rw [hlu]
  · exact getCloseInfo_loser_mem m1 observedTab openedTab activeWindowId

/-- C3 (witness): determinism and totality at a concrete input. -/
theorem claim_C3_witness :
    getCloseInfo regTie obsT opT (some 1) = getCloseInfo regTie obsT opT (some 1) ∧
    ((getCloseInfo regTie obsT opT (some 1)).1 = obsT.id ∨
      (getCloseInfo regTie obsT opT (some 1)).1 = opT.id) :=
  claim_C3_total_deterministic regTie regTie obsT opT (some 1) rfl rfl

/-- C10 (counterexample): `keepInfo.active` and `keepInfo.tabIndex` are
taken from the LOSING tab, not from the keeper: with the observed tab as
keeper, `keepInfo.active` is the opened (closed) tab's `active` flag and
`keepInfo.tabIndex` its index. -/
theorem claim_C10_counterexample :
    (getCloseInfo regOld obsT opT none).2.tabId = obsT.id ∧
    (getCloseInfo regOld obsT opT none).1 = opT.id ∧
    obsT.active = false ∧
    (getCloseInfo regOld obsT opT none).2.active = true ∧
    obsT.index = 0 ∧
    (getCloseInfo regOld obsT opT none).2.tabIndex = 3 := by
  decide

/-- C10 (amended): for distinct candidate ids, `getCloseInfo` returns as
loser exactly one of the two input ids and `keepInfo.tabId` is the other;
`keepInfo.windowId` is the keeper's window id while `keepInfo.active` and
`keepInfo.tabIndex` are taken from the losing tab; it never returns a
third id and never the same id as both loser and keeper. -/
theorem claim_C10_partition (m : TabsInfo) (observedTab openedTab : Tab)
    (awid : Option Int) (hne : observedTab.id ≠ openedTab.id) :
    ((getCloseInfo m observedTab openedTab awid).1 = openedTab.id ∧
       (getCloseInfo m observedTab openedTab awid).2.tabId = observedTab.id ∨
     (getCloseInfo m observedTab openedTab awid).1 = observedTab.id ∧
       (getCloseInfo m observedTab openedTab awid).2.tabId = openedTab.id) ∧
    (getCloseInfo m observedTab openedTab awid).1 ≠
      (getCloseInfo m observedTab openedTab awid).2.tabId ∧
    ((getCloseInfo m observedTab openedTab awid).2.tabId = observedTab.id →
      (getCloseInfo m observedTab openedTab awid).2.windowId = observedTab.windowId ∧
      (getCloseInfo m observedTab openedTab awid).2.active = openedTab.active ∧
      (getCloseInfo m observedTab openedTab awid).2.tabIndex = openedTab.index ∧
      (getCloseInfo m observedTab openedTab awid).2.observedTabClosed = false) ∧
    ((getCloseInfo m observedTab openedTab awid).2.tabId = openedTab.id →
      (getCloseInfo m observedTab openedTab awid).2.windowId = openedTab.windowId ∧
      (getCloseInfo m observedTab openedTab awid).2.active = observedTab.active ∧
      (getCloseInfo m observedTab openedTab awid).2.tabIndex = observedTab.index ∧
      (getCloseInfo m observedTab openedTab awid).2.observedTabClosed = true) := by
  have hr : (if truthyWindowId awid = true then
        getFocusedTab observedTab openedTab (awid.getD 0)
          (getLastUpdatedTabId m observedTab openedTab)
      else getLastUpdatedTabId m observedTab openedTab) = observedTab.id ∨
      (if truthyWindowId awid = true then
        getFocusedTab observedTab openedTab (awid.getD 0)
          (getLastUpdatedTabId m observedTab openedTab)
      else getLastUpdatedTabId m observedTab openedTab) = openedTab.id := by
    by_cases htr : truthyWindowId awid = true
    · rw [if_pos htr]
      exact getFocusedTab_mem observedTab openedTab (awid.getD 0) _
    · rw [if_neg htr]
      exact getLastUpdatedTabId_mem m observedTab openedTab
  unfold getCloseInfo
  dsimp only
  rcases hr with hro | hro
  · rw [hro]
    simp [hne.symm, hne]
  · rw [hro]
    have hne2 : ¬(openedTab.id = observedTab.id) := fun hh => hne hh.symm
    simp [hne2, hne]

/-- C10 (witness): the partition fact at a concrete input. -/
theorem claim_C10_witness :
    ((getCloseInfo regOld obsT opT none).1 = opT.id ∧
      (getCloseInfo regOld obsT opT none).2.tabId = obsT.id) ∨
    ((getCloseInfo regOld obsT opT none).1 = obsT.id ∧
      (getCloseInfo regOld obsT opT none).2.tabId = opT.id) :=
  (claim_C10_partition regOld obsT opT none (by decide)).1

/-- C6: `removeTab` makes at most 3 attempts (2 retries); a first-attempt
failure without the transient marker rejects immediately after exactly one
attempt; three consecutive transient failures exhaust the budget and
reject with the last message after exactly 3 attempts. -/
theorem claim_C6_bounded_retry (env : Nat → Option String) :
    (removeTab env).2 ≤ 3 ∧
    (∀ msg, env 0 = some msg →
      containsSub transientMarker.toList msg.toList = false →
      removeTab env = (Except.error msg, 1)) ∧
    (∀ m0 m1 m2, env 0 = some m0 → env 1 = some m1 → env 2 = some m2 →
      containsSub transientMarker.toList m0.toList = true →
      containsSub transientMarker.toList m1.toList = true →
      removeTab env = (Except.error m2, 3)) := by
  refine ⟨?_, ?_, ?_⟩
  · have h := removeTabRun_count_le env maxRetries 0 (by omega) (by omega)
    unfold removeTab
    have hm : maxRetries + 1 - 0 = 3 := by rfl
    rw [hm] at h
    exact h
  · intro msg h0 hnt
    have hnt2 : containsSub transientMarker.data msg.data = false := hnt
    unfold removeTab
    rw [removeTabRun, h0]
    dsimp only
    rw [dif_neg (by unfold isTransientRetry; simp [hnt2])]
  · intro m0 m1 m2 h0 h1 h2 ht0 ht1
    have ht0a : containsSub transientMarker.data m0.data = true := ht0
    have ht1a : containsSub transientMarker.data m1.data = true := ht1
    have htr0 : isTransientRetry m0 0 = true := by
      unfold isTransientRetry maxRetries
      simp [ht0a]
    have htr1 : isTransientRetry m1 1 = true := by
      unfold isTransientRetry maxRetries
      simp [ht1a]
    have htr2 : ¬(isTransientRetry m2 2 = true) := by
      unfold isTransientRetry maxRetries
      simp
    unfold removeTab
    rw [removeTabRun, h0]
    dsimp only
    rw [dif_pos htr0]
    rw [removeTabRun, h1]
    dsimp only
    rw [dif_pos htr1]
    rw [removeTabRun, h2]
    dsimp only
    rw [dif_neg htr2]

/-- C6 (witness): the retry exhaustion facts under an always-transient
oracle and an immediate non-transient failure. -/
theorem claim_C6_witness :
    removeTab envAllTransient = (Except.error transientMarker, 3) ∧
    (removeTab envAllTransient).2 ≤ 3 := by
  have h := claim_C6_bounded_retry envAllTransient
  exact ⟨h.2.2 transientMarker transientMarker transientMarker rfl rfl rfl
    (by decide) (by decide), h.1⟩

/-- C5: the closure executor's ignored-flag discipline: the flag is set
before the removal request, is cleared on the failure path of
`closeDuplicateTab`, is left set exactly when the removal succeeded, and
every loser processed by the startup reconciler ends with its flag equal
to the success of its own removal (both the concurrent and the sequential
path). -/
theorem claim_C5_ignored_discipline (m : TabsInfo) (envC : Nat → Option String)
    (envs : Nat → Nat → Option String) (i : Nat) (t : TabRec) (now1 now2 : Nat)
    (ht : tabsGet m i = some t) :
    tabsGet (ignoreTab m i true now1) i =
      some { t with ignored := true, lastAccessed := now1 } ∧
    ((removeTab envC).1 = Except.ok () →
      tabsGet (closeDuplicateTab m envC i now1 now2) i =
        some { t with ignored := true, lastAccessed := now1 }) ∧
    (∀ e, (removeTab envC).1 = Except.error e →
      tabsGet (closeDuplicateTab m envC i now1 now2) i =
        some { t with ignored := false, lastAccessed := now2 }) ∧
    (∀ (group : List Tab) (keep : Tab) (rest : List Tab) (now : Nat),
      sortByLastAccessedDesc group = keep :: rest →
      (rest.map Tab.id).Nodup → i ∈ rest.map Tab.id →
      tabsGet (installProcessGroup m envs now group).1 i =
        some { t with ignored := !(removalFails envs i), lastAccessed := now }) := by
  refine ⟨tabsGet_ignoreTab_self m i true now1 t ht, ?_, ?_, ?_⟩
  · intro hok
    unfold closeDuplicateTab
    rw [hok]
    exact tabsGet_ignoreTab_self m i true now1 t ht
  · intro e herr
    unfold closeDuplicateTab
    rw [herr]
    dsimp only
    exact tabsGet_ignoreTab_self _ i false now2
      { t with ignored := true, lastAccessed := now1 }
      (tabsGet_ignoreTab_self m i true now1 t ht)
  · intro group keep rest now hs hnd hmem
    unfold installProcessGroup
    rw [hs]
    dsimp only
    by_cases hlen : rest.length ≤ 4
    · rw [if_pos hlen]
      exact closeLosersConcurrent_get m envs now rest i t hnd hmem ht
    · rw [if_neg hlen]
      exact closeLosersSequential_get m envs now rest i t hnd hmem ht

/-- C5 (witness): the discipline evaluated with successful removals: the
reconciler leaves the loser's flag set (removal succeeded), and
`closeDuplicateTab` leaves the flag set on the success path. -/
theorem claim_C5_witness :
    tabsGet (installProcessGroup regTie envsAllOk 77 instGroup).1 2 =
      some { recA with ignored := !(removalFails envsAllOk 2), lastAccessed := 77 } ∧
    tabsGet (closeDuplicateTab regTie envAllOk 2 7 8) 2 =
      some { recA with ignored := true, lastAccessed := 7 } := by
  have h := claim_C5_ignored_discipline regTie envAllOk envsAllOk 2 recA 7 8 (by decide)
  refine ⟨h.2.2.2 instGroup obsT [opT] 77 (by decide) (by decide) (by decide), ?_⟩
  exact h.2.1 (by unfold removeTab; rw [removeTabRun]; rfl)

/-- C7: the startup reconciler's batch policy: a group whose loser list
has length at most 4 takes the concurrent path (all removals issued with
no inter-removal delay, failures handled independently per loser), a
larger group takes the sequential path with a 25 ms delay after each
removal; in particular exactly 4 losers go concurrent and 5 go
sequential. -/
theorem claim_C7_batch_boundary (m : TabsInfo) (envs : Nat → Nat → Option String)
    (now : Nat) (group : List Tab) (keep : Tab) (rest : List Tab)
    (hs : sortByLastAccessedDesc group = keep :: rest) :
    (rest.length ≤ 4 →
      (installProcessGroup m envs now group).2 =
        rest.map (fun t => BatchAction.remove t.id) ∧
      (installProcessGroup m envs now group).1 =
        closeLosersConcurrent m envs now rest) ∧
    (4 < rest.length →
      (installProcessGroup m envs now group).2 =
        rest.flatMap (fun t => [BatchAction.remove t.id, BatchAction.delay 25]) ∧
      (installProcessGroup m envs now group).1 =
        closeLosersSequential m envs now rest) ∧
    (rest.length = 4 →
      (installProcessGroup m envs now group).2 =
        rest.map (fun t => BatchAction.remove t.id)) ∧
    (rest.length = 5 →
      (installProcessGroup m envs now group).2 =
        rest.flatMap (fun t => [BatchAction.remove t.id, BatchAction.delay 25])) := by
  unfold installProcessGroup groupClosureActions
  rw [hs]
  dsimp only
  refine ⟨?_, ?_, ?_, ?_⟩
  · intro hlen
    rw [if_pos hlen, if_pos hlen]
    exact ⟨rfl, rfl⟩
  · intro hlen
    have hgt : ¬(rest.length ≤ 4) := by omega
    rw [if_neg hgt, if_neg hgt]
    exact ⟨rfl, rfl⟩
  · intro hlen
    have hle : rest.length ≤ 4 := by omega
    rw [if_pos hle, if_pos hle]
  · intro hlen
    have hgt : ¬(rest.length ≤ 4) := by omega
    rw [if_neg hgt, if_neg hgt]

/-- C7 (witness): a group of exactly 4 losers yields the concurrent
schedule with no delays; a group of 5 losers yields the sequential
schedule with a 25 ms delay after each removal. -/
theorem claim_C7_witness :
    (installProcessGroup [] envsAllOk 0 g5).2 =
      [BatchAction.remove 2, BatchAction.remove 3,
       BatchAction.remove 4, BatchAction.remove 5] ∧
    (installProcessGroup [] envsAllOk 0 g6).2 =
      [BatchAction.remove 2, BatchAction.delay 25, BatchAction.remove 3,
       BatchAction.delay 25, BatchAction.remove 4, BatchAction.delay 25,
       BatchAction.remove 5, BatchAction.delay 25, BatchAction.remove 6,
       BatchAction.delay 25] := by
  have h5 := (claim_C7_batch_boundary [] envsAllOk 0 g5 (gTab 1 90)
    [gTab 2 80, gTab 3 70, gTab 4 60, gTab 5 50] (by decide)).2.2.1 (by decide)
  have h6 := (claim_C7_batch_boundary [] envsAllOk 0 g6 (gTab 1 90)
    [gTab 2 80, gTab 3 70, gTab 4 60, gTab 5 50, gTab 6 40] (by decide)).2.2.2 (by decide)
  rw [h5, h6]
  decide

end FrickDup
